import Mathlib

/-!
Verification of the change-detection and incremental index-synchronization
engine of the bear-mcp-server repository.

The definitions below are a shallow embedding of the JavaScript sources
`src/services/incremental-index.js` and the watch/scheduler module
(`updateIndex`, `scheduleUpdate`, `checkDatabaseVersion`, `monitorDatabase`).
In-place object mutation is modelled by explicit state passing; `throw` is
modelled by `Except`; the external collaborators (embedding model, FAISS
index file, metadata file, SQLite database) are modelled as parameters of
the functions that call them.  Machine integers are `Nat` (timestamps and
version counters are non-negative and far from any overflow boundary in the
source, which uses JS numbers).
-/

namespace BearSync

/-- Embedding vectors are abstract fixed-dimension numeric vectors; their
numeric content is irrelevant to every property proved here, so they are
modelled as lists of integers. -/
abbrev Embedding := List Int

/-- The FAISS `IndexFlatL2` handle as used by the source: an append-only
collection of vectors supporting `add` (append) and `ntotal` (count). -/
structure FaissIndex where
  vecs : List Embedding
deriving DecidableEq

/-- `index.ntotal` — the number of vectors stored. -/
def FaissIndex.ntotal (i : FaissIndex) : Nat := i.vecs.length

/-- `index.add(embedding)` — append one vector. -/
def FaissIndex.add (i : FaissIndex) (e : Embedding) : FaissIndex := ⟨i.vecs ++ [e]⟩

/-- The `noteIdMap` JS object: keys are integer index positions, values are
note identifiers.  JS objects enumerate integer-like keys in ascending
numeric order, so the map is kept as an association list sorted by key;
`mapInsert` below preserves that order, mirroring `Object.entries`. -/
abbrev NoteIdMap := List (Nat × String)

/-- `noteIdMap[k] = v`: insert keeping ascending key order (replacing an
existing entry for the key), mirroring JS integer-key property assignment. -/
def mapInsert (m : NoteIdMap) (k : Nat) (v : String) : NoteIdMap :=
  match m with
  | [] => [(k, v)]
  | (k0, v0) :: rest =>
    if k < k0 then (k, v) :: (k0, v0) :: rest
    else if k = k0 then (k, v) :: rest
    else (k0, v0) :: mapInsert rest k v

/-- `delete noteIdMap[k]`. -/
def mapErase (m : NoteIdMap) (k : Nat) : NoteIdMap :=
  m.filter (fun e => e.1 != k)

/-- `Object.entries(noteIdMap).find(([_, id]) => id === noteId)?.[0]` —
the first position (in ascending key order) mapped to `noteId`. -/
def entriesFindPos (m : NoteIdMap) (noteId : String) : Option Nat :=
  (m.find? (fun e => e.2 == noteId)).map (fun e => e.1)

/-- JS `String.prototype.trim` restricted to the whitespace characters that
can occur in this code path (space, tab, line feed, carriage return,
vertical tab, form feed). -/
def isJsWhitespace (c : Char) : Bool :=
  c = ' ' || c = '\n' || c = '\t' || c = '\r' || c = Char.ofNat 11 || c = Char.ofNat 12

/-- `s.trim()` on a JS string. -/
def jsTrim (s : String) : String :=
  String.mk (((s.data.dropWhile isJsWhitespace).reverse.dropWhile isJsWhitespace).reverse)

/-- The text embedded for a note: `` `${title}\n${content || ''}`.trim() ``.
(`content` is already a string here; `x || ''` is the identity on strings
because `'' || ''` is `''`.) -/
def embedText (title content : String) : String :=
  jsTrim (title ++ "\n" ++ content)

/-- Result of `addNoteToIndex` / `updateNoteInIndex`: the returned value or
thrown error, together with the state of the two mutable collaborators
(`index` and `noteIdMap`) when the call returns or throws — JS mutations
performed before a `throw` survive it. -/
structure AddResult where
  res : Except String Nat
  index : FaissIndex
  noteIdMap : NoteIdMap

/-- `addNoteToIndex(index, noteIdMap, noteId, title, content)` from
`src/services/incremental-index.js`: trims title+content, fails on empty
text, obtains the embedding (the collaborator `createEmbedding` is the
parameter `embed` and may fail), appends it, and records
`noteIdMap[index.ntotal - 1] = noteId`. -/
def addNoteToIndex (embed : String → Except String Embedding)
    (index : FaissIndex) (noteIdMap : NoteIdMap)
    (noteId title content : String) : AddResult :=
  let textToEmbed := embedText title content
  if textToEmbed = "" then
    { res := .error "Empty note content", index := index, noteIdMap := noteIdMap }
  else
    match embed textToEmbed with
    | .error e => { res := .error e, index := index, noteIdMap := noteIdMap }
    | .ok emb =>
      let index' := index.add emb
      let position := index'.ntotal - 1
      { res := .ok position, index := index',
        noteIdMap := mapInsert noteIdMap position noteId }

/-- `updateNoteInIndex(index, noteIdMap, noteId, title, content)`: find the
existing position for `noteId`; if absent fall through to `addNoteToIndex`;
otherwise delete the mapping entry first (tombstoning the old position) and
then re-add.  An error thrown by the re-add propagates after the delete. -/
def updateNoteInIndex (embed : String → Except String Embedding)
    (index : FaissIndex) (noteIdMap : NoteIdMap)
    (noteId title content : String) : AddResult :=
  match entriesFindPos noteIdMap noteId with
  | none => addNoteToIndex embed index noteIdMap noteId title content
  | some position =>
    let m' := mapErase noteIdMap position
    addNoteToIndex embed index m' noteId title content

/-- A row returned by the Bear database: `ZUNIQUEIDENTIFIER`, `ZTITLE`,
`ZTEXT`, `ZMODIFICATIONDATE`, `ZTRASHED`.  `title`/`content` are the strings
after the caller's `|| ''` defaulting. -/
structure Note where
  id : String
  title : String
  content : String
  modified : Nat
  trashed : Bool
deriving DecidableEq

/-- The durable metadata record `index_metadata.json`:
`{ lastUpdate, indexedNotes, lastVersion }`.  `indexedNotes` is a JS object
keyed by note id, kept as an insertion-ordered association list. -/
structure Metadata where
  lastUpdate : Nat
  indexedNotes : List (String × Nat)
  lastVersion : Nat
deriving DecidableEq

/-- Look up `indexedNotes[id]`. -/
def lookupIndexed (l : List (String × Nat)) (id : String) : Option Nat :=
  (l.find? (fun p => p.1 == id)).map (fun p => p.2)

/-- `indexedNotes[id] = t` (replace if present, else append). -/
def setIndexed (l : List (String × Nat)) (id : String) (t : Nat) :
    List (String × Nat) :=
  if l.any (fun p => p.1 == id) then
    l.map (fun p => if p.1 == id then (id, t) else p)
  else l ++ [(id, t)]

/-- JS truthiness of `indexMetadata.indexedNotes[note.id]`: an absent key or
a stored `0` are falsy, any other stored number is truthy. -/
def truthyIndexed (l : List (String × Nat)) (id : String) : Bool :=
  match lookupIndexed l id with
  | some t => t != 0
  | none => false

/-- The mutable state threaded through the `processNotes` loop. -/
structure ProcState where
  index : FaissIndex
  noteIdMap : NoteIdMap
  indexedNotes : List (String × Nat)
  processedCount : Nat

/-- One iteration of the `for (const note of notes)` loop in `processNotes`:
skip falsy ids, route through update or add depending on the truthiness of
`indexedNotes[note.id]`, record the indexing time and bump the counter on
success, and on a per-note error keep whatever mutations happened and
continue (`catch` + `continue with other notes`).  `now` is `Date.now()`. -/
def processOneNote (embed : String → Except String Embedding) (now : Nat)
    (st : ProcState) (note : Note) : ProcState :=
  if note.id = "" then st
  else
    let r :=
      if truthyIndexed st.indexedNotes note.id then
        updateNoteInIndex embed st.index st.noteIdMap note.id note.title note.content
      else
        addNoteToIndex embed st.index st.noteIdMap note.id note.title note.content
    match r.res with
    | .ok _ =>
      { index := r.index, noteIdMap := r.noteIdMap,
        indexedNotes := setIndexed st.indexedNotes note.id now,
        processedCount := st.processedCount + 1 }
    | .error _ =>
      { st with index := r.index, noteIdMap := r.noteIdMap }

/-- Effects on durable storage and the database, in the order performed.
Only successful operations are recorded; a failed write leaves no effect. -/
inductive Effect
  | loadMetadata
  | fetch
  | loadIndex
  | saveIndex
  | writeMetadata
deriving DecidableEq

/-- The external collaborators of one synchronization pass: the embedding
model (`createEmbedding` and `initEmbedder`), the index artifacts on disk
(`loadVectorIndex`'s outcome), and whether the two persistence writes
succeed.  `now` models `Date.now()`. -/
structure Env where
  embed : String → Except String Embedding
  initOk : Bool
  load : Except String (FaissIndex × NoteIdMap)
  saveOk : Bool
  metaWriteOk : Bool
  now : Nat

/-- Outcome of `processNotes`: the returned count or thrown error, the state
of `indexMetadata.indexedNotes` (mutated in place even when the batch later
throws), what was persisted by `saveVectorIndex` (if reached and successful),
and the storage effects performed. -/
structure ProcessOutcome where
  res : Except String Nat
  indexedNotes : List (String × Nat)
  savedIndex : Option (FaissIndex × NoteIdMap)
  trace : List Effect

/-- `processNotes(notes, indexMetadata)` from
`src/services/incremental-index.js`: empty input short-circuits with count 0;
otherwise init the embedder, load the index and mapping from disk, run the
per-note loop, and save the updated index.  Errors from init, load or save
propagate to the caller (after the loop's in-place metadata mutations). -/
def processNotes (env : Env) (notes : List Note)
    (indexedNotes : List (String × Nat)) : ProcessOutcome :=
  if notes.isEmpty then
    { res := .ok 0, indexedNotes := indexedNotes, savedIndex := none, trace := [] }
  else if !env.initOk then
    { res := .error "Embedder initialization failed", indexedNotes := indexedNotes,
      savedIndex := none, trace := [] }
  else
    match env.load with
    | .error e =>
      { res := .error e, indexedNotes := indexedNotes, savedIndex := none, trace := [] }
    | .ok (index0, map0) =>
      let st := notes.foldl (processOneNote env.embed env.now)
        { index := index0, noteIdMap := map0, indexedNotes := indexedNotes,
          processedCount := 0 }
      if env.saveOk then
        { res := .ok st.processedCount, indexedNotes := st.indexedNotes,
          savedIndex := some (st.index, st.noteIdMap),
          trace := [.loadIndex, .saveIndex] }
      else
        { res := .error "Failed to save vector index", indexedNotes := st.indexedNotes,
          savedIndex := none, trace := [.loadIndex] }

/-- Stable ascending insertion by `modified` (equal keys keep their relative
order, as `ORDER BY ZMODIFICATIONDATE ASC` permits). -/
def insertByModified (n : Note) : List Note → List Note
  | [] => [n]
  | m :: rest =>
    if n.modified < m.modified then n :: m :: rest
    else m :: insertByModified n rest

/-- Sort a list of rows ascending by `modified`. -/
def sortByModified (l : List Note) : List Note :=
  l.foldr insertByModified []

/-- The SQL query in `updateIndex`:
`WHERE ZTRASHED = 0 AND ZMODIFICATIONDATE > ? ORDER BY ZMODIFICATIONDATE ASC`
against the database contents `db`. -/
def fetchModified (db : List Note) (watermark : Nat) : List Note :=
  sortByModified (db.filter (fun n => !n.trashed && decide (watermark < n.modified)))

/-- The mutable module-level state of the watch/scheduler module that a
synchronization pass reads and writes: `isIndexing`, `dbChangeDetected`, and
the in-memory `metadata` object. -/
structure SyncState where
  isIndexing : Bool
  dbChangeDetected : Bool
  metadata : Metadata
deriving DecidableEq

/-- Outcome of one `updateIndex` invocation: the module state when the call
returns, the storage effects performed, and the error caught by the
`catch` block (if any) — `updateIndex` never rethrows. -/
structure UpdateOutcome where
  state : SyncState
  trace : List Effect
  err : Option String

/-- A default row, used only as the (never-reached) `getLastD` fallback. -/
def dummyNote : Note := { id := "", title := "", content := "", modified := 0, trashed := false }

/-- `updateIndex(db, metadata)` from the watch/scheduler module: skip if
`isIndexing` is set; otherwise set it, clear `dbChangeDetected`, fetch the
rows modified after `metadata.lastUpdate` (ascending), return early if none,
else run `processNotes`, advance `metadata.lastUpdate` to
`Math.max(metadata.lastUpdate, lastFetchedRow.modified)` and write the
metadata file.  Any thrown error is caught; the `finally` clause clears
`isIndexing`.  (The `finally` also schedules a follow-up pass when
`dbChangeDetected` was re-set by a concurrent watcher callback; in this
single-invocation model the flag stays cleared.) -/
def updateIndex (env : Env) (db : List Note) (st : SyncState) : UpdateOutcome :=
  if st.isIndexing then
    { state := st, trace := [], err := none }
  else
    let md := st.metadata
    let modifiedNotes := fetchModified db md.lastUpdate
    if modifiedNotes.isEmpty then
      { state := { isIndexing := false, dbChangeDetected := false, metadata := md },
        trace := [.fetch], err := none }
    else
      let po := processNotes env modifiedNotes md.indexedNotes
      match po.res with
      | .error e =>
        { state := { isIndexing := false, dbChangeDetected := false,
                     metadata := { md with indexedNotes := po.indexedNotes } },
          trace := .fetch :: po.trace, err := some e }
      | .ok _count =>
        let lastNote := modifiedNotes.getLastD dummyNote
        let meta' := { md with indexedNotes := po.indexedNotes,
                               lastUpdate := max md.lastUpdate lastNote.modified }
        if env.metaWriteOk then
          { state := { isIndexing := false, dbChangeDetected := false, metadata := meta' },
            trace := .fetch :: po.trace ++ [.writeMetadata], err := none }
        else
          { state := { isIndexing := false, dbChangeDetected := false, metadata := meta' },
            trace := .fetch :: po.trace, err := some "Metadata write failed" }

/-- `checkDatabaseVersion(db, metadata)`: result of the call.  `scheduled`
records whether `scheduleUpdate` was invoked. -/
structure CheckResult where
  changed : Bool
  metadata : Metadata
  scheduled : Bool
deriving DecidableEq

/-- `checkDatabaseVersion(db, metadata)` from the watch/scheduler module:
`versionRead` is the outcome of `db.pragma('data_version', ...)`.  On a
successful read differing from `metadata.lastVersion`, update it, return
`true`, and call `scheduleUpdate` exactly when `isIndexing` is unset; on an
equal read return `false`; on a thrown read error the `catch` returns
`false` leaving the metadata untouched. -/
def checkDatabaseVersion (versionRead : Except String Nat) (isIndexing : Bool)
    (metadata : Metadata) : CheckResult :=
  match versionRead with
  | .error _ => { changed := false, metadata := metadata, scheduled := false }
  | .ok v =>
    if v ≠ metadata.lastVersion then
      { changed := true, metadata := { metadata with lastVersion := v },
        scheduled := !isIndexing }
    else
      { changed := false, metadata := metadata, scheduled := false }

/-- State of the debounce machinery: `pendingUpdateTimeout` (the handle kept
by the module) and the timers currently armed in the event loop (`live`),
each identified by a fresh id drawn from `nextId`. -/
structure TimerState where
  nextId : Nat
  live : List Nat
  pending : Option Nat
deriving DecidableEq

/-- `scheduleUpdate(db, metadata)` from the watch/scheduler module, viewed
through its timer bookkeeping: `clearTimeout` the pending handle if any,
then `setTimeout` a fresh timer and store its handle. -/
def scheduleUpdate (ts : TimerState) : TimerState :=
  let live1 :=
    match ts.pending with
    | some t => ts.live.erase t
    | none => ts.live
  { nextId := ts.nextId + 1, live := live1 ++ [ts.nextId], pending := some ts.nextId }

/-- The bookkeeping invariant of the debounce state: the armed timers are
exactly the pending handle (zero or one of them), and all issued ids are
below `nextId`. -/
def timerWF (ts : TimerState) : Prop :=
  ts.live = (match ts.pending with | none => [] | some t => [t]) ∧
  ∀ t ∈ ts.live, t < ts.nextId

/-- The timer state at module load: no pending handle, no armed timer. -/
def timerInit : TimerState := { nextId := 0, live := [], pending := none }

/-- Phase of one `updateIndex` invocation on the cooperative event loop:
not yet started, inside the guarded critical section (with `k` remaining
suspension points), or returned (`skipped` tells which exit was taken). -/
inductive Phase
  | ready
  | running (k : Nat)
  | skipped
  | finished
deriving DecidableEq

/-- Whether a task is currently executing the guarded critical section. -/
def Phase.isRunning : Phase → Bool
  | .running _ => true
  | _ => false

/-- The cooperative scheduler's view of the module: the `isIndexing` flag
and the phases of all `updateIndex` invocations triggered so far. -/
structure SchedState where
  flag : Bool
  tasks : List Phase
deriving DecidableEq

/-- Number of invocations currently inside the critical section. -/
def countRunning (s : SchedState) : Nat :=
  (s.tasks.filter Phase.isRunning).length

/-- Interleaving semantics of `updateIndex` invocations on one cooperative
event loop.  A trigger event (file-watch callback, poll tick, debounce
expiry) spawns a new invocation.  The prologue of `updateIndex` — reading
`isIndexing` and either returning (line `if (isIndexing) ... return`) or
setting it — contains no `await`, so it is a single atomic step (`enter` /
`skip`).  `work` is any of the `await` suspension points inside the pass;
`exitDone` is the `finally` clause clearing the flag. -/
inductive SchedStep : SchedState → SchedState → Prop
  | spawn (s : SchedState) :
      SchedStep s { flag := s.flag, tasks := s.tasks ++ [.ready] }
  | enter (l r : List Phase) (k : Nat) :
      SchedStep { flag := false, tasks := l ++ .ready :: r }
               { flag := true, tasks := l ++ .running k :: r }
  | skip (l r : List Phase) :
      SchedStep { flag := true, tasks := l ++ .ready :: r }
               { flag := true, tasks := l ++ .skipped :: r }
  | work (fl : Bool) (l r : List Phase) (k : Nat) :
      SchedStep { flag := fl, tasks := l ++ .running (k + 1) :: r }
               { flag := fl, tasks := l ++ .running k :: r }
  | exitDone (fl : Bool) (l r : List Phase) :
      SchedStep { flag := fl, tasks := l ++ .running 0 :: r }
               { flag := false, tasks := l ++ .finished :: r }

/-- The scheduler state at process start: flag clear, no invocations. -/
def schedInit : SchedState := { flag := false, tasks := [] }

/-- A state the cooperative scheduler can reach from process start. -/
def SchedReachable (s : SchedState) : Prop :=
  Relation.ReflTransGen SchedStep schedInit s

/-- Run a sequence of synchronization passes (one per element of `dbs`,
giving the database contents each pass observes), threading the module
state and concatenating the storage effects. -/
def runPasses (env : Env) (dbs : List (List Note)) (st : SyncState) :
    SyncState × List Effect :=
  dbs.foldl
    (fun acc db =>
      let o := updateIndex env db acc.1
      (o.state, acc.2 ++ o.trace))
    (st, [])

/-- Storage effects of a whole process run: `monitorDatabase` loads the
metadata record once at startup (`initializeMetadata`), then the passes
run. -/
def processTrace (env : Env) (dbs : List (List Note)) (st : SyncState) :
    List Effect :=
  .loadMetadata :: (runPasses env dbs st).2

/-- How many times effect `e` occurs in a trace. -/
def countEffect (e : Effect) (tr : List Effect) : Nat :=
  (tr.filter (fun x => x == e)).length

/-- `loadVectorIndex()` from `src/services/incremental-index.js`: the two
artifacts (`note_vectors.index` read by FAISS and `note_vectors.json`) are
each either readable (`some` content) or absent/unreadable (`none`); any
failure in the `try` block is caught and replaced by the remediation
error. -/
def loadVectorIndex (indexArtifact : Option FaissIndex)
    (mapArtifact : Option NoteIdMap) : Except String (FaissIndex × NoteIdMap) :=
  match indexArtifact, mapArtifact with
  | some i, some m => .ok (i, m)
  | _, _ => .error "Failed to load vector index. Run \"npm run index\" first."

/-- The largest `modified` timestamp in a list of rows (0 when empty). -/
def maxMod : List Note → Nat
  | [] => 0
  | n :: t => max n.modified (maxMod t)

/-- The index positions present in a mapping. -/
def mapKeys (m : NoteIdMap) : List Nat := m.map Prod.fst

/-- Inductive invariant of the cooperative scheduler: at most one invocation
is in its critical section, and none is when `isIndexing` is clear. -/
def schedInv (s : SchedState) : Prop :=
  countRunning s ≤ 1 ∧ (s.flag = false → countRunning s = 0)

/-- A list of rows whose `getLastD` carries the maximal timestamp (the shape
`sortByModified` produces). -/
def GoodLast (s : List Note) : Prop :=
  ∀ d, s ≠ [] → (s.getLastD d).modified = maxMod s

/-! ### Auxiliary lemmas about sorting and the fetched batch -/

theorem maxMod_insertByModified (n : Note) (l : List Note) :
    maxMod (insertByModified n l) = max n.modified (maxMod l) := by
  induction l with
  | nil => simp [insertByModified, maxMod]
  | cons m rest ih =>
    by_cases h : n.modified < m.modified
    · simp [insertByModified, h, maxMod]
    · simp only [insertByModified, if_neg h, maxMod, ih]
      omega

theorem maxMod_sortByModified (l : List Note) :
    maxMod (sortByModified l) = maxMod l := by
  induction l with
  | nil => rfl
  | cons m rest ih =>
    show maxMod (insertByModified m (sortByModified rest)) = _
    rw [maxMod_insertByModified, ih]
    rfl

theorem insertByModified_ne_nil (n : Note) (l : List Note) :
    insertByModified n l ≠ [] := by
  cases l with
  | nil => simp [insertByModified]
  | cons m rest =>
    simp only [insertByModified]
    split <;> simp

theorem sortByModified_ne_nil {l : List Note} (h : l ≠ []) :
    sortByModified l ≠ [] := by
  cases l with
  | nil => exact absurd rfl h
  | cons m rest => exact insertByModified_ne_nil m (sortByModified rest)

theorem getLastD_irrel (l : List Note) (h : l ≠ []) (d d' : Note) :
    l.getLastD d = l.getLastD d' := by
  cases l with
  | nil => exact absurd rfl h
  | cons a t => rw [List.getLastD_cons, List.getLastD_cons]

theorem getLastD_mem (l : List Note) (d : Note) (h : l ≠ []) :
    l.getLastD d ∈ l := by
  induction l generalizing d with
  | nil => exact absurd rfl h
  | cons a t ih =>
    rw [List.getLastD_cons]
    cases t with
    | nil => simp [List.getLastD]
    | cons b u => exact List.mem_cons_of_mem a (ih a (by simp))

theorem mem_le_maxMod {a : Note} {l : List Note} (h : a ∈ l) :
    a.modified ≤ maxMod l := by
  induction l with
  | nil => cases h
  | cons m t ih =>
    rcases List.mem_cons.mp h with rfl | h'
    · exact Nat.le_max_left _ _
    · exact le_trans (ih h') (Nat.le_max_right _ _)

theorem goodLast_insertByModified (n : Note) (s : List Note) (hs : GoodLast s) :
    GoodLast (insertByModified n s) := by
  induction s with
  | nil =>
    intro d _
    simp [insertByModified, List.getLastD, maxMod]
  | cons m rest ih =>
    intro d _
    by_cases hlt : n.modified < m.modified
    · rw [show insertByModified n (m :: rest) = n :: m :: rest by
        simp [insertByModified, hlt]]
      rw [List.getLastD_cons, hs n (by simp)]
      have h1 : n.modified ≤ maxMod (m :: rest) :=
        le_trans (le_of_lt hlt) (Nat.le_max_left _ _)
      show maxMod (m :: rest) = max n.modified (maxMod (m :: rest))
      omega
    · rw [show insertByModified n (m :: rest) = m :: insertByModified n rest by
        simp [insertByModified, hlt]]
      rw [List.getLastD_cons]
      cases rest with
      | nil =>
        simp only [insertByModified, List.getLastD_cons, List.getLastD_nil, maxMod]
        omega
      | cons b u =>
        have hbu : (b :: u : List Note) ≠ [] := by simp
        have hmem : (b :: u).getLastD m ∈ b :: u := getLastD_mem _ _ hbu
        have h2 : ((b :: u).getLastD m).modified = maxMod (m :: b :: u) := by
          have h0 := hs d (by simp)
          rwa [List.getLastD_cons] at h0
        have hle : ((b :: u).getLastD m).modified ≤ maxMod (b :: u) :=
          mem_le_maxMod hmem
        have hmax : maxMod (m :: b :: u) = max m.modified (maxMod (b :: u)) := rfl
        have hm_le : m.modified ≤ maxMod (b :: u) := by
          rw [hmax] at h2; omega
        have hgood : GoodLast (b :: u) := by
          intro d' hne
          rw [getLastD_irrel _ hne d' m]
          rw [hmax] at h2; omega
        have hne' : insertByModified n (b :: u) ≠ [] := insertByModified_ne_nil n _
        rw [getLastD_irrel _ hne' m d] at *
        rw [ih hgood d hne']
        show maxMod (insertByModified n (b :: u)) =
          max m.modified (maxMod (insertByModified n (b :: u)))
        rw [maxMod_insertByModified]
        omega

theorem goodLast_sortByModified (l : List Note) : GoodLast (sortByModified l) := by
  induction l with
  | nil => intro d h; exact absurd rfl h
  | cons m rest ih => exact goodLast_insertByModified m (sortByModified rest) ih

/-- The last row of a nonempty fetched batch carries the batch's maximal
modification time. -/
theorem fetchModified_getLastD (db : List Note) (w : Nat) (d : Note)
    (h : fetchModified db w ≠ []) :
    ((fetchModified db w).getLastD d).modified = maxMod (fetchModified db w) := by
  have hg := goodLast_sortByModified
    (db.filter (fun n => !n.trashed && decide (w < n.modified)))
  exact hg d h

theorem processNotes_success (env : Env) (notes : List Note)
    (idx : List (String × Nat)) (hne : notes ≠ []) (hinit : env.initOk = true)
    (i0 : FaissIndex) (m0 : NoteIdMap) (hload : env.load = .ok (i0, m0))
    (hsave : env.saveOk = true) :
    processNotes env notes idx =
      { res := .ok ((notes.foldl (processOneNote env.embed env.now)
          { index := i0, noteIdMap := m0, indexedNotes := idx,
            processedCount := 0 }).processedCount),
        indexedNotes := (notes.foldl (processOneNote env.embed env.now)
          { index := i0, noteIdMap := m0, indexedNotes := idx,
            processedCount := 0 }).indexedNotes,
        savedIndex := some ((notes.foldl (processOneNote env.embed env.now)
          { index := i0, noteIdMap := m0, indexedNotes := idx,
            processedCount := 0 }).index,
          (notes.foldl (processOneNote env.embed env.now)
          { index := i0, noteIdMap := m0, indexedNotes := idx,
            processedCount := 0 }).noteIdMap),
        trace := [.loadIndex, .saveIndex] } := by
  unfold processNotes
  rw [hload]
  have h1 : notes.isEmpty = false := by
    cases notes with
    | nil => exact absurd rfl hne
    | cons a t => rfl
  simp [h1, hinit, hsave]

theorem updateIndex_lastUpdate_mono (env : Env) (db : List Note)
    (st : SyncState) :
    st.metadata.lastUpdate ≤ (updateIndex env db st).state.metadata.lastUpdate := by
  unfold updateIndex
  split
  · exact le_refl _
  · dsimp only
    split
    · exact le_refl _
    · split
      · exact le_refl _
      · split
        · exact Nat.le_max_left _ _
        · exact Nat.le_max_left _ _

theorem updateIndex_completed (env : Env) (db : List Note) (st : SyncState)
    (hidle : st.isIndexing = false)
    (hne : fetchModified db st.metadata.lastUpdate ≠ [])
    (hinit : env.initOk = true) (i0 : FaissIndex) (m0 : NoteIdMap)
    (hload : env.load = .ok (i0, m0)) (hsave : env.saveOk = true) :
    (updateIndex env db st).state.metadata.lastUpdate =
      max st.metadata.lastUpdate (maxMod (fetchModified db st.metadata.lastUpdate)) := by
  unfold updateIndex
  rw [hidle]
  have h1 : (fetchModified db st.metadata.lastUpdate).isEmpty = false := by
    cases h : fetchModified db st.metadata.lastUpdate with
    | nil => exact absurd h hne
    | cons a t => rfl
  simp only [Bool.false_eq_true, if_false, h1]
  rw [processNotes_success env _ _ hne hinit i0 m0 hload hsave]
  simp only []
  rw [fetchModified_getLastD db st.metadata.lastUpdate dummyNote hne]
  split <;> rfl

/-! ### Claim theorems -/

/-- C1, counterexample: the claim says `lastUpdate` after a pass equals the
maximum `modificationTime` among documents *successfully processed*, and is
unchanged if none was processed.  Concretely: starting from
`lastUpdate = 1000`, a pass fetches the single note `n2` (empty title and
content, `modified = 1500`); `addNoteToIndex` fails on it, so zero
documents are processed (`processNotes` returns count 0), yet the pass
advances `lastUpdate` to 1500 — the code advances the watermark past a
document it failed to index. -/
theorem watermark_claim_counterexample :
    (processNotes
        { embed := fun _ => .ok [1], initOk := true, load := .ok (⟨[]⟩, []),
          saveOk := true, metaWriteOk := true, now := 7 }
        (fetchModified
          [{ id := "n2", title := "", content := "", modified := 1500, trashed := false }]
          1000)
        []).res = .ok 0 ∧
    (updateIndex
        { embed := fun _ => .ok [1], initOk := true, load := .ok (⟨[]⟩, []),
          saveOk := true, metaWriteOk := true, now := 7 }
        [{ id := "n2", title := "", content := "", modified := 1500, trashed := false }]
        { isIndexing := false, dbChangeDetected := false,
          metadata := { lastUpdate := 1000, indexedNotes := [],
                        lastVersion := 100 } }).state.metadata.lastUpdate = 1500 :=
  ⟨rfl, rfl⟩

/-- C1 (amended): across every `updateIndex` invocation the watermark
`metadata.lastUpdate` is monotonically non-decreasing; when the pass is not
skipped, the fetch is nonempty, and the batch completes (embedder
initializes, index loads and saves), the new watermark equals
`max(old watermark, maximum modificationTime among the documents fetched in
the pass)` — regardless of per-document failures; and it is unchanged when
the pass is skipped because `isIndexing` is set or when the fetch returns
no documents. -/
theorem watermark_amended :
    (∀ (env : Env) (db : List Note) (st : SyncState),
      st.metadata.lastUpdate ≤ (updateIndex env db st).state.metadata.lastUpdate) ∧
    (∀ (env : Env) (db : List Note) (st : SyncState) (i0 : FaissIndex)
      (m0 : NoteIdMap), st.isIndexing = false →
      fetchModified db st.metadata.lastUpdate ≠ [] → env.initOk = true →
      env.load = .ok (i0, m0) → env.saveOk = true →
      (updateIndex env db st).state.metadata.lastUpdate =
        max st.metadata.lastUpdate
          (maxMod (fetchModified db st.metadata.lastUpdate))) ∧
    (∀ (env : Env) (db : List Note) (st : SyncState), st.isIndexing = true →
      (updateIndex env db st).state.metadata.lastUpdate = st.metadata.lastUpdate) ∧
    (∀ (env : Env) (db : List Note) (st : SyncState), st.isIndexing = false →
      fetchModified db st.metadata.lastUpdate = [] →
      (updateIndex env db st).state.metadata.lastUpdate = st.metadata.lastUpdate) := by
  refine ⟨updateIndex_lastUpdate_mono, ?_, ?_, ?_⟩
  · intro env db st i0 m0 hidle hne hinit hload hsave
    exact updateIndex_completed env db st hidle hne hinit i0 m0 hload hsave
  · intro env db st hbusy
    unfold updateIndex
    rw [hbusy]
    rfl
  · intro env db st hidle hempty
    simp only [updateIndex, hidle, hempty]
    rfl

/-- Witness for C1 (amended): a pass over one successfully indexed note
(`modified = 1500`) from watermark 1000 advances the watermark to 1500. -/
theorem watermark_amended_witness :
    (updateIndex
        { embed := fun _ => .ok [1], initOk := true, load := .ok (⟨[]⟩, []),
          saveOk := true, metaWriteOk := true, now := 7 }
        [{ id := "n1", title := "A", content := "B", modified := 1500, trashed := false }]
        { isIndexing := false, dbChangeDetected := false,
          metadata := { lastUpdate := 1000, indexedNotes := [],
                        lastVersion := 100 } }).state.metadata.lastUpdate =
      max 1000 (maxMod (fetchModified
        [{ id := "n1", title := "A", content := "B", modified := 1500, trashed := false }]
        1000)) :=
  watermark_amended.2.1
    { embed := fun _ => .ok [1], initOk := true, load := .ok (⟨[]⟩, []),
      saveOk := true, metaWriteOk := true, now := 7 }
    [{ id := "n1", title := "A", content := "B", modified := 1500, trashed := false }]
    { isIndexing := false, dbChangeDetected := false,
      metadata := { lastUpdate := 1000, indexedNotes := [], lastVersion := 100 } }
    ⟨[]⟩ [] rfl (by decide) rfl rfl rfl

/-- C8: starting idle with watermark `T`, if every non-trashed document in
the database has `modificationTime ≤ T`, a synchronization pass is a no-op:
the metadata record (including `lastUpdate`) is unchanged, no error occurs,
and the only storage effect is the (empty) fetch — in particular the pass
performs no index write and no metadata write. -/
theorem idempotent_resume (env : Env) (db : List Note) (st : SyncState)
    (hidle : st.isIndexing = false)
    (hT : ∀ n ∈ db, n.trashed = false → n.modified ≤ st.metadata.lastUpdate) :
    (updateIndex env db st).state.metadata = st.metadata ∧
    (updateIndex env db st).trace = [.fetch] ∧
    (updateIndex env db st).err = none := by
  have hf : db.filter
      (fun n => !n.trashed && decide (st.metadata.lastUpdate < n.modified)) = [] := by
    rw [List.filter_eq_nil_iff]
    intro n hn
    simp only [Bool.and_eq_true, Bool.not_eq_true', decide_eq_true_eq, not_and]
    intro htr
    exact Nat.not_lt.mpr (hT n hn htr)
  have hfe : fetchModified db st.metadata.lastUpdate = [] := by
    unfold fetchModified
    rw [hf]
    rfl
  simp only [updateIndex, hidle, hfe]
  exact ⟨rfl, rfl, rfl⟩

/-- Witness for C8: with watermark 1000 and a database whose only note has
`modified = 900`, the pass changes nothing and only performs the fetch. -/
theorem idempotent_resume_witness :
    (updateIndex
        { embed := fun _ => .ok [1], initOk := true, load := .ok (⟨[]⟩, []),
          saveOk := true, metaWriteOk := true, now := 7 }
        [{ id := "n1", title := "A", content := "B", modified := 900, trashed := false }]
        { isIndexing := false, dbChangeDetected := false,
          metadata := { lastUpdate := 1000, indexedNotes := [("n1", 900)],
                        lastVersion := 100 } }).state.metadata =
      { lastUpdate := 1000, indexedNotes := [("n1", 900)], lastVersion := 100 } :=
  (idempotent_resume
    { embed := fun _ => .ok [1], initOk := true, load := .ok (⟨[]⟩, []),
      saveOk := true, metaWriteOk := true, now := 7 }
    [{ id := "n1", title := "A", content := "B", modified := 900, trashed := false }]
    { isIndexing := false, dbChangeDetected := false,
      metadata := { lastUpdate := 1000, indexedNotes := [("n1", 900)],
                    lastVersion := 100 } }
    rfl (by decide)).1

@[simp] theorem isRunning_ready : Phase.ready.isRunning = false := rfl

@[simp] theorem isRunning_skipped : Phase.skipped.isRunning = false := rfl

@[simp] theorem isRunning_finished : Phase.finished.isRunning = false := rfl

@[simp] theorem isRunning_running (k : Nat) : (Phase.running k).isRunning = true := rfl

theorem countRunning_split (fl : Bool) (l r : List Phase) (p : Phase) :
    countRunning { flag := fl, tasks := l ++ p :: r } =
      (l.filter Phase.isRunning).length + (r.filter Phase.isRunning).length +
        (if p.isRunning then 1 else 0) := by
  simp only [countRunning, List.filter_append, List.filter_cons, List.length_append]
  by_cases h : p.isRunning = true
  · simp [h]
    omega
  · simp [h]

theorem schedStep_inv {s s' : SchedState} (hstep : SchedStep s s')
    (hinv : schedInv s) : schedInv s' := by
  obtain ⟨h1, h2⟩ := hinv
  cases hstep with
  | spawn s =>
    have he : countRunning { flag := s.flag, tasks := s.tasks ++ [Phase.ready] } =
        countRunning s := by
      simp [countRunning, List.filter_append]
    exact ⟨by rw [he]; exact h1, fun hf => by rw [he]; exact h2 hf⟩
  | enter l r k =>
    have h0 : countRunning { flag := false, tasks := l ++ Phase.ready :: r } = 0 :=
      h2 rfl
    rw [countRunning_split] at h0
    simp only [isRunning_ready, if_false] at h0
    constructor
    · rw [countRunning_split]
      simp only [isRunning_running, if_true]
      omega
    · intro hf
      exact absurd hf (by simp)
  | skip l r =>
    have he : countRunning { flag := true, tasks := l ++ Phase.skipped :: r } =
        countRunning { flag := true, tasks := l ++ Phase.ready :: r } := by
      rw [countRunning_split, countRunning_split]
      simp
    constructor
    · rw [he]; exact h1
    · intro hf
      exact absurd hf (by simp)
  | work fl l r k =>
    have he : countRunning { flag := fl, tasks := l ++ Phase.running k :: r } =
        countRunning { flag := fl, tasks := l ++ Phase.running (k + 1) :: r } := by
      rw [countRunning_split, countRunning_split]
      simp
    exact ⟨by rw [he]; exact h1, fun hf => by rw [he]; exact h2 hf⟩
  | exitDone fl l r =>
    rw [countRunning_split] at h1
    simp only [isRunning_running, if_true] at h1
    constructor
    · rw [countRunning_split]
      simp only [isRunning_finished, Bool.false_eq_true, if_false]
      omega
    · intro _
      rw [countRunning_split]
      simp only [isRunning_finished, Bool.false_eq_true, if_false]
      omega

theorem schedReachable_inv {s : SchedState} (h : SchedReachable s) : schedInv s := by
  induction h with
  | refl =>
    exact ⟨by simp [countRunning, schedInit], fun _ => by simp [countRunning, schedInit]⟩
  | tail _ hstep ih => exact schedStep_inv hstep ih

/-- C2: an `updateIndex` invocation finding `isIndexing` already set returns
immediately with the module state untouched, no storage effect and no error
(no fetch, no indexing, no writes); and on the cooperative event loop —
where the flag check and set at the top of `updateIndex` are one atomic
step, there being no `await` between them — every reachable interleaving of
trigger events has at most one invocation inside the critical section. -/
theorem at_most_one_pass :
    (∀ (env : Env) (db : List Note) (st : SyncState), st.isIndexing = true →
      updateIndex env db st = { state := st, trace := [], err := none }) ∧
    (∀ s : SchedState, SchedReachable s → countRunning s ≤ 1) := by
  constructor
  · intro env db st h
    simp [updateIndex, h]
  · intro s hs
    exact (schedReachable_inv hs).1

/-- Witness for C2: a busy-flagged invocation at a concrete state is the
identity with empty trace, and the initial scheduler state (reachable by the
empty interleaving) has no pass running. -/
theorem at_most_one_pass_witness :
    updateIndex
        { embed := fun _ => .ok [1], initOk := true, load := .ok (⟨[]⟩, []),
          saveOk := true, metaWriteOk := true, now := 7 }
        []
        { isIndexing := true, dbChangeDetected := false,
          metadata := { lastUpdate := 0, indexedNotes := [], lastVersion := 0 } } =
      { state := { isIndexing := true, dbChangeDetected := false,
                   metadata := { lastUpdate := 0, indexedNotes := [], lastVersion := 0 } },
        trace := [], err := none } ∧
    countRunning schedInit ≤ 1 :=
  ⟨at_most_one_pass.1
      { embed := fun _ => .ok [1], initOk := true, load := .ok (⟨[]⟩, []),
        saveOk := true, metaWriteOk := true, now := 7 }
      []
      { isIndexing := true, dbChangeDetected := false,
        metadata := { lastUpdate := 0, indexedNotes := [], lastVersion := 0 } }
      rfl,
    at_most_one_pass.2 schedInit Relation.ReflTransGen.refl⟩

theorem scheduleUpdate_wf (ts : TimerState) (h : timerWF ts) :
    timerWF (scheduleUpdate ts) ∧ (scheduleUpdate ts).live.length = 1 := by
  obtain ⟨hl, _hb⟩ := h
  cases hp : ts.pending with
  | none =>
    rw [hp] at hl
    refine ⟨⟨?_, ?_⟩, ?_⟩ <;> simp [scheduleUpdate, hp, hl]
  | some t =>
    rw [hp] at hl
    refine ⟨⟨?_, ?_⟩, ?_⟩ <;> simp [scheduleUpdate, hp, hl]

theorem timerWF_length_le (ts : TimerState) (h : timerWF ts) :
    ts.live.length ≤ 1 := by
  obtain ⟨hl, _⟩ := h
  cases hp : ts.pending with
  | none => rw [hp] at hl; simp [hl]
  | some t => rw [hp] at hl; simp [hl]

theorem timerWF_iterate (k : Nat) (ts : TimerState) (h : timerWF ts) :
    timerWF (Nat.iterate scheduleUpdate k ts) := by
  induction k generalizing ts with
  | zero => exact h
  | succ m ih => exact ih (scheduleUpdate ts) (scheduleUpdate_wf ts h).1

theorem iterate_scheduleUpdate_length (m : Nat) (ts : TimerState) (h : timerWF ts) :
    (Nat.iterate scheduleUpdate (m + 1) ts).live.length = 1 := by
  induction m generalizing ts with
  | zero => exact (scheduleUpdate_wf ts h).2
  | succ m ih => exact ih (scheduleUpdate ts) (scheduleUpdate_wf ts h).1

/-- C4: from any well-formed debounce state, a burst of `N ≥ 1` calls to
`scheduleUpdate` (each cancelling the pending timer before arming a fresh
one) leaves exactly one armed timer — so exactly one synchronization pass is
scheduled for the whole burst, not `N` — and at every moment during the
burst at most one timer is pending. -/
theorem debounce_coalescing (ts : TimerState) (h : timerWF ts) (N : Nat)
    (hN : 1 ≤ N) :
    (Nat.iterate scheduleUpdate N ts).live.length = 1 ∧
    ∀ k ≤ N, (Nat.iterate scheduleUpdate k ts).live.length ≤ 1 := by
  obtain ⟨M, rfl⟩ : ∃ M, N = M + 1 := ⟨N - 1, by omega⟩
  refine ⟨iterate_scheduleUpdate_length M ts h, ?_⟩
  intro k _
  exact timerWF_length_le _ (timerWF_iterate k ts h)

/-- Witness for C4: three rapid `scheduleUpdate` calls from the initial
timer state leave exactly one armed timer. -/
theorem debounce_coalescing_witness :
    (Nat.iterate scheduleUpdate 3 timerInit).live.length = 1 :=
  (debounce_coalescing timerInit ⟨rfl, by simp [timerInit]⟩ 3 (by decide)).1

theorem not_mem_mapKeys_mapErase (m : NoteIdMap) (k : Nat) :
    k ∉ mapKeys (mapErase m k) := by
  intro h
  obtain ⟨e, he, hk⟩ := List.mem_map.mp h
  obtain ⟨_, hpred⟩ := List.mem_filter.mp he
  rw [hk] at hpred
  simp at hpred

theorem mem_mapKeys_mapInsert {k' : Nat} (m : NoteIdMap) (q : Nat) (v : String)
    (h : k' ∈ mapKeys (mapInsert m q v)) : k' = q ∨ k' ∈ mapKeys m := by
  induction m with
  | nil =>
    simp [mapInsert, mapKeys] at h
    exact Or.inl h
  | cons e rest ih =>
    obtain ⟨k0, v0⟩ := e
    simp only [mapInsert] at h
    by_cases h1 : q < k0
    · rw [if_pos h1] at h
      simp only [mapKeys, List.map_cons, List.mem_cons] at h ⊢
      tauto
    · rw [if_neg h1] at h
      by_cases h2 : q = k0
      · rw [if_pos h2] at h
        simp only [mapKeys, List.map_cons, List.mem_cons] at h ⊢
        tauto
      · rw [if_neg h2] at h
        simp only [mapKeys, List.map_cons, List.mem_cons] at h ⊢
        rcases h with h | h
        · tauto
        · rcases ih h with h' | h' <;> tauto

theorem mapInsert_self_mem (m : NoteIdMap) (q : Nat) (v : String) :
    (q, v) ∈ mapInsert m q v := by
  induction m with
  | nil => simp [mapInsert]
  | cons e rest ih =>
    obtain ⟨k0, v0⟩ := e
    simp only [mapInsert]
    by_cases h1 : q < k0
    · rw [if_pos h1]; exact List.mem_cons_self _ _
    · rw [if_neg h1]
      by_cases h2 : q = k0
      · rw [if_pos h2]; exact List.mem_cons_self _ _
      · rw [if_neg h2]; exact List.mem_cons_of_mem _ ih

/-- C3: for a document id that has a position `p` in the mapping (with `p` a
valid index position), a successful `updateNoteInIndex` removes the old
mapping entry for `p` (tombstoning it), appends one embedding (the vector
count strictly increases), and records the id at the new position
`index.ntotal`, which is strictly higher than `p`; and for an id with no
position in the mapping, `updateNoteInIndex` is definitionally
`addNoteToIndex`. -/
theorem tombstone_append (embed : String → Except String Embedding)
    (index : FaissIndex) (m : NoteIdMap) (id title content : String)
    (p : Nat) (emb : Embedding)
    (hfind : entriesFindPos m id = some p) (hp : p < index.ntotal)
    (hne : embedText title content ≠ "")
    (hembed : embed (embedText title content) = .ok emb) :
    (updateNoteInIndex embed index m id title content).res = .ok index.ntotal ∧
    p < index.ntotal ∧
    (updateNoteInIndex embed index m id title content).index.ntotal =
      index.ntotal + 1 ∧
    p ∉ mapKeys (updateNoteInIndex embed index m id title content).noteIdMap ∧
    (index.ntotal, id) ∈ (updateNoteInIndex embed index m id title content).noteIdMap ∧
    (∀ m' : NoteIdMap, entriesFindPos m' id = none →
      updateNoteInIndex embed index m' id title content =
        addNoteToIndex embed index m' id title content) := by
  have hstep : updateNoteInIndex embed index m id title content =
      addNoteToIndex embed index (mapErase m p) id title content := by
    unfold updateNoteInIndex
    rw [hfind]
  have hadd : addNoteToIndex embed index (mapErase m p) id title content =
      { res := .ok index.ntotal, index := index.add emb,
        noteIdMap := mapInsert (mapErase m p) index.ntotal id } := by
    unfold addNoteToIndex
    rw [if_neg hne, hembed]
    simp [FaissIndex.add, FaissIndex.ntotal]
  rw [hstep, hadd]
  refine ⟨rfl, hp, by simp [FaissIndex.add, FaissIndex.ntotal], ?_, ?_, ?_⟩
  · intro hmem
    rcases mem_mapKeys_mapInsert _ _ _ hmem with h | h
    · omega
    · exact not_mem_mapKeys_mapErase m p h
  · exact mapInsert_self_mem _ _ _
  · intro m' hnone
    unfold updateNoteInIndex
    rw [hnone]

/-- Witness for C3: updating note `n1` (stored at position 0 of a 1-vector
index) appends a vector and re-records `n1` at position 1. -/
theorem tombstone_append_witness :
    (updateNoteInIndex (fun _ => .ok [2]) ⟨[[1]]⟩ [(0, "n1")] "n1" "A" "B").res =
      .ok 1 ∧
    (updateNoteInIndex (fun _ => .ok [2]) ⟨[[1]]⟩ [(0, "n1")] "n1" "A" "B").index.ntotal =
      2 :=
  ⟨(tombstone_append (fun _ => .ok [2]) ⟨[[1]]⟩ [(0, "n1")] "n1" "A" "B" 0 [2]
      rfl (by decide) (by decide) rfl).1,
   (tombstone_append (fun _ => .ok [2]) ⟨[[1]]⟩ [(0, "n1")] "n1" "A" "B" 0 [2]
      rfl (by decide) (by decide) rfl).2.2.1⟩

theorem addNoteToIndex_empty (embed : String → Except String Embedding)
    (index : FaissIndex) (m : NoteIdMap) (id title content : String)
    (h : embedText title content = "") :
    addNoteToIndex embed index m id title content =
      { res := .error "Empty note content", index := index, noteIdMap := m } := by
  unfold addNoteToIndex
  rw [if_pos h]

theorem processOneNote_skip (embed : String → Except String Embedding)
    (now : Nat) (s : ProcState) (bad : Note) (hid : bad.id ≠ "")
    (hempty : embedText bad.title bad.content = "")
    (ht : truthyIndexed s.indexedNotes bad.id = false) :
    processOneNote embed now s bad = s := by
  unfold processOneNote
  rw [if_neg hid, if_neg (by rw [ht]; exact Bool.false_ne_true)]
  rw [addNoteToIndex_empty embed s.index s.noteIdMap bad.id bad.title bad.content hempty]

/-- C5: a note whose title and content trim to the empty string makes
`addNoteToIndex` fail with the "Empty note content" error, appending nothing
to the index and adding nothing to the mapping; inside the `processNotes`
loop such a failure leaves the processed count and `indexedNotes` untouched,
and (for a not-yet-indexed note) the whole batch behaves exactly as if the
failing note were absent — the remaining notes are still processed. -/
theorem empty_content_per_document :
    (∀ (embed : String → Except String Embedding) (index : FaissIndex)
      (m : NoteIdMap) (id title content : String),
      embedText title content = "" →
      addNoteToIndex embed index m id title content =
        { res := .error "Empty note content", index := index, noteIdMap := m }) ∧
    (∀ (embed : String → Except String Embedding) (now : Nat) (st : ProcState)
      (bad : Note), bad.id ≠ "" → embedText bad.title bad.content = "" →
      (processOneNote embed now st bad).processedCount = st.processedCount ∧
      (processOneNote embed now st bad).indexedNotes = st.indexedNotes) ∧
    (∀ (embed : String → Except String Embedding) (now : Nat) (st : ProcState)
      (bad : Note) (pre post : List Note),
      bad.id ≠ "" → embedText bad.title bad.content = "" →
      truthyIndexed ((pre.foldl (processOneNote embed now) st).indexedNotes) bad.id
        = false →
      (pre ++ bad :: post).foldl (processOneNote embed now) st =
        (pre ++ post).foldl (processOneNote embed now) st) := by
  refine ⟨addNoteToIndex_empty, ?_, ?_⟩
  · intro embed now st bad hid hempty
    unfold processOneNote
    rw [if_neg hid]
    by_cases ht : truthyIndexed st.indexedNotes bad.id
    · rw [if_pos ht]
      cases hf : entriesFindPos st.noteIdMap bad.id with
      | none =>
        simp [updateNoteInIndex, hf, addNoteToIndex_empty _ _ _ _ _ _ hempty]
      | some p =>
        simp [updateNoteInIndex, hf, addNoteToIndex_empty _ _ _ _ _ _ hempty]
    · rw [if_neg ht]
      rw [addNoteToIndex_empty _ _ _ _ _ _ hempty]
      exact ⟨rfl, rfl⟩
  · intro embed now st bad pre post hid hempty ht
    rw [List.foldl_append, List.foldl_append, List.foldl_cons,
      processOneNote_skip embed now _ bad hid hempty ht]

/-- Witness for C5: in a batch `[n1, n2, n3]` where `n2` has empty title and
content and is not yet indexed, processing equals processing `[n1, n3]`. -/
theorem empty_content_per_document_witness :
    ([{ id := "n1", title := "A", content := "B", modified := 10, trashed := false },
      { id := "n2", title := "", content := "", modified := 11, trashed := false },
      { id := "n3", title := "C", content := "D", modified := 12, trashed := false }]
        : List Note).foldl (processOneNote (fun _ => .ok [1]) 99)
        { index := ⟨[]⟩, noteIdMap := [], indexedNotes := [], processedCount := 0 } =
    ([{ id := "n1", title := "A", content := "B", modified := 10, trashed := false },
      { id := "n3", title := "C", content := "D", modified := 12, trashed := false }]
        : List Note).foldl (processOneNote (fun _ => .ok [1]) 99)
        { index := ⟨[]⟩, noteIdMap := [], indexedNotes := [], processedCount := 0 } :=
  empty_content_per_document.2.2 (fun _ => .ok [1]) 99
    { index := ⟨[]⟩, noteIdMap := [], indexedNotes := [], processedCount := 0 }
    { id := "n2", title := "", content := "", modified := 11, trashed := false }
    [{ id := "n1", title := "A", content := "B", modified := 10, trashed := false }]
    [{ id := "n3", title := "C", content := "D", modified := 12, trashed := false }]
    (by decide) (by decide) (by decide)

/-- C10: when the id has position `p` in the mapping (and only that
position) but the re-add step fails — empty trimmed content or a failing
embedding collaborator — `updateNoteInIndex` propagates the error, leaves
the vector index untouched, and leaves the mapping with the entry for `p`
already deleted and not restored: the document has no live position. -/
theorem update_not_atomic_on_error (embed : String → Except String Embedding)
    (index : FaissIndex) (m : NoteIdMap) (id title content : String) (p : Nat)
    (hfind : entriesFindPos m id = some p)
    (hfail : embedText title content = "" ∨
      ∃ err, embed (embedText title content) = .error err)
    (huniq : ∀ e ∈ m, e.2 = id → e.1 = p) :
    (∃ msg, (updateNoteInIndex embed index m id title content).res = .error msg) ∧
    (updateNoteInIndex embed index m id title content).index = index ∧
    (updateNoteInIndex embed index m id title content).noteIdMap = mapErase m p ∧
    entriesFindPos (updateNoteInIndex embed index m id title content).noteIdMap id
      = none := by
  have hstep : updateNoteInIndex embed index m id title content =
      addNoteToIndex embed index (mapErase m p) id title content := by
    unfold updateNoteInIndex
    rw [hfind]
  have hnone : entriesFindPos (mapErase m p) id = none := by
    unfold entriesFindPos
    rw [List.find?_eq_none.mpr]
    · rfl
    · intro e he
      obtain ⟨hem, hpred⟩ := List.mem_filter.mp he
      intro hbeq
      have : e.1 = p := huniq e hem (by simpa using hbeq)
      simp [this] at hpred
  rw [hstep]
  by_cases he : embedText title content = ""
  · unfold addNoteToIndex
    rw [if_pos he]
    exact ⟨⟨"Empty note content", rfl⟩, rfl, rfl, hnone⟩
  · obtain ⟨err, herr⟩ := hfail.resolve_left he
    unfold addNoteToIndex
    rw [if_neg he, herr]
    exact ⟨⟨err, rfl⟩, rfl, rfl, hnone⟩

/-- Witness for C10: updating `n1` (only position 0) with empty content
deletes the mapping entry and leaves `n1` with no live position. -/
theorem update_not_atomic_on_error_witness :
    (updateNoteInIndex (fun _ => .ok [1]) ⟨[[1]]⟩ [(0, "n1")] "n1" "" "").noteIdMap =
      mapErase [(0, "n1")] 0 ∧
    entriesFindPos
      (updateNoteInIndex (fun _ => .ok [1]) ⟨[[1]]⟩ [(0, "n1")] "n1" "" "").noteIdMap
      "n1" = none :=
  ⟨(update_not_atomic_on_error (fun _ => .ok [1]) ⟨[[1]]⟩ [(0, "n1")] "n1" "" "" 0
      rfl (Or.inl (by decide)) (by decide)).2.2.1,
   (update_not_atomic_on_error (fun _ => .ok [1]) ⟨[[1]]⟩ [(0, "n1")] "n1" "" "" 0
      rfl (Or.inl (by decide)) (by decide)).2.2.2⟩

/-- C6: a successful counter read differing from `metadata.lastVersion`
updates it, reports changed, and schedules a pass exactly when no
synchronization pass is in progress; an equal read reports unchanged and
changes nothing; a throwing read reports unchanged and leaves the metadata
untouched. -/
theorem version_check_behavior (isIndexing : Bool) (m : Metadata) :
    (∀ v : Nat, v ≠ m.lastVersion →
      checkDatabaseVersion (.ok v) isIndexing m =
        { changed := true, metadata := { m with lastVersion := v },
          scheduled := !isIndexing }) ∧
    (checkDatabaseVersion (.ok m.lastVersion) isIndexing m =
      { changed := false, metadata := m, scheduled := false }) ∧
    (∀ e : String, checkDatabaseVersion (.error e) isIndexing m =
      { changed := false, metadata := m, scheduled := false }) := by
  refine ⟨?_, ?_, ?_⟩
  · intro v hv
    simp [checkDatabaseVersion, hv]
  · simp [checkDatabaseVersion]
  · intro e
    rfl

/-- Witness for C6: the spec scenario — stored version 100, database reports
200 while idle: changed, `lastVersion := 200`, a pass is scheduled. -/
theorem version_check_behavior_witness :
    checkDatabaseVersion (.ok 200) false
        { lastUpdate := 1000, indexedNotes := [("n1", 1000)], lastVersion := 100 } =
      { changed := true,
        metadata := { lastUpdate := 1000, indexedNotes := [("n1", 1000)],
                      lastVersion := 200 },
        scheduled := true } :=
  (version_check_behavior false
    { lastUpdate := 1000, indexedNotes := [("n1", 1000)], lastVersion := 100 }).1
    200 (by decide)

/-- C9: if either index artifact is absent or unreadable, `loadVectorIndex`
fails with the distinct, user-actionable missing-index error (naming the
`npm run index` remediation) and never returns any index/mapping pair — in
particular it never fabricates an empty one. -/
theorem missing_index_error (ia : Option FaissIndex) (ma : Option NoteIdMap)
    (h : ia = none ∨ ma = none) :
    loadVectorIndex ia ma =
      .error "Failed to load vector index. Run \"npm run index\" first." ∧
    ∀ pr : FaissIndex × NoteIdMap, loadVectorIndex ia ma ≠ .ok pr := by
  have he : loadVectorIndex ia ma =
      .error "Failed to load vector index. Run \"npm run index\" first." := by
    cases ia with
    | none => cases ma <;> rfl
    | some i =>
      cases ma with
      | none => rfl
      | some mm =>
        rcases h with h | h <;> exact absurd h (by simp)
  exact ⟨he, fun pr hok => by rw [he] at hok; exact Except.noConfusion hok⟩

/-- Witness for C9: the mapping artifact missing while the index binary is
present yields the missing-index error. -/
theorem missing_index_error_witness :
    loadVectorIndex (some ⟨[[1]]⟩) none =
      .error "Failed to load vector index. Run \"npm run index\" first." :=
  (missing_index_error (some ⟨[[1]]⟩) none (Or.inr rfl)).1

theorem processNotes_trace_cases (env : Env) (notes : List Note)
    (idx : List (String × Nat)) :
    (processNotes env notes idx).trace = [] ∨
    (processNotes env notes idx).trace = [.loadIndex] ∨
    (processNotes env notes idx).trace = [.loadIndex, .saveIndex] := by
  unfold processNotes
  split
  · exact Or.inl rfl
  · split
    · exact Or.inl rfl
    · split
      · exact Or.inl rfl
      · split
        · exact Or.inr (Or.inr rfl)
        · exact Or.inr (Or.inl rfl)

theorem updateIndex_no_loadMetadata (env : Env) (db : List Note)
    (st : SyncState) : Effect.loadMetadata ∉ (updateIndex env db st).trace := by
  rcases processNotes_trace_cases env (fetchModified db st.metadata.lastUpdate)
    st.metadata.indexedNotes with h | h | h <;>
  · by_cases hb : st.isIndexing = true
    · simp [updateIndex, hb]
    · cases hfe : (fetchModified db st.metadata.lastUpdate).isEmpty with
      | true => simp [updateIndex, hb, hfe]
      | false =>
        cases hres : (processNotes env (fetchModified db st.metadata.lastUpdate)
            st.metadata.indexedNotes).res with
        | error e => simp [updateIndex, hb, hfe, hres, h]
        | ok c =>
          cases hw : env.metaWriteOk with
          | true => simp [updateIndex, hb, hfe, hres, hw, h]
          | false => simp [updateIndex, hb, hfe, hres, hw, h]

theorem countEffect_append (e : Effect) (t1 t2 : List Effect) :
    countEffect e (t1 ++ t2) = countEffect e t1 + countEffect e t2 := by
  simp [countEffect, List.filter_append]

theorem countEffect_zero_of_not_mem {e : Effect} {tr : List Effect}
    (h : e ∉ tr) : countEffect e tr = 0 := by
  unfold countEffect
  rw [List.filter_eq_nil_iff.mpr]
  · rfl
  · intro x hx hbeq
    exact h (by rwa [show x = e from by simpa using hbeq] at hx)

theorem runPasses_countEffect_loadMetadata (env : Env) (dbs : List (List Note))
    (st : SyncState) (tr0 : List Effect) :
    countEffect .loadMetadata
      (dbs.foldl
        (fun acc db =>
          let o := updateIndex env db acc.1
          (o.state, acc.2 ++ o.trace))
        (st, tr0)).2 = countEffect .loadMetadata tr0 := by
  induction dbs generalizing st tr0 with
  | nil => rfl
  | cons db dbs ih =>
    rw [List.foldl_cons]
    rw [ih]
    rw [countEffect_append]
    rw [countEffect_zero_of_not_mem (updateIndex_no_loadMetadata env db st)]
    simp

/-- C7, counterexample: the claim says the (Vector Index, Position Mapping)
pair is loaded from durable storage once at process start and held in memory
for the process's lifetime.  In the code, `processNotes` calls
`loadVectorIndex` inside every synchronization pass: a concrete run with two
passes (one modified note each) performs two index loads, not one — and
neither happens at process start (only the metadata record is loaded
there). -/
theorem lifecycle_claim_counterexample :
    countEffect .loadIndex
      (processTrace
        { embed := fun _ => .ok [1], initOk := true, load := .ok (⟨[]⟩, []),
          saveOk := true, metaWriteOk := true, now := 7 }
        [[{ id := "n1", title := "A", content := "B", modified := 10, trashed := false }],
         [{ id := "n1", title := "A", content := "C", modified := 20, trashed := false }]]
        { isIndexing := false, dbChangeDetected := false,
          metadata := { lastUpdate := 0, indexedNotes := [], lastVersion := 0 } }) = 2 :=
  rfl

/-- C7 (amended): the metadata record is loaded from durable storage exactly
once per process run (at start, by `initializeMetadata`); the vector index
and position mapping are loaded at the beginning of every synchronization
pass that finds modified documents (inside `processNotes`), not once at
process start; and every such pass that completes successfully ends by
writing the index+mapping and then the metadata back to durable storage. -/
theorem lifecycle_amended :
    (∀ (env : Env) (dbs : List (List Note)) (st : SyncState),
      countEffect .loadMetadata (processTrace env dbs st) = 1) ∧
    (∀ (env : Env) (db : List Note) (st : SyncState) (i0 : FaissIndex)
      (m0 : NoteIdMap), st.isIndexing = false →
      fetchModified db st.metadata.lastUpdate ≠ [] → env.initOk = true →
      env.load = .ok (i0, m0) → env.saveOk = true → env.metaWriteOk = true →
      (updateIndex env db st).trace =
        [.fetch, .loadIndex, .saveIndex, .writeMetadata]) := by
  constructor
  · intro env dbs st
    have h2 : countEffect Effect.loadMetadata (runPasses env dbs st).2 = 0 := by
      unfold runPasses
      rw [runPasses_countEffect_loadMetadata]
      rfl
    show countEffect Effect.loadMetadata
      (Effect.loadMetadata :: (runPasses env dbs st).2) = 1
    rw [show Effect.loadMetadata :: (runPasses env dbs st).2 =
      [Effect.loadMetadata] ++ (runPasses env dbs st).2 from rfl]
    rw [countEffect_append, h2]
    rfl
  · intro env db st i0 m0 hidle hne hinit hload hsave hwrite
    unfold updateIndex
    rw [hidle]
    have h1 : (fetchModified db st.metadata.lastUpdate).isEmpty = false := by
      cases h : fetchModified db st.metadata.lastUpdate with
      | nil => exact absurd h hne
      | cons a t => rfl
    simp only [Bool.false_eq_true, if_false, h1]
    rw [processNotes_success env _ _ hne hinit i0 m0 hload hsave]
    simp [hwrite]

/-- Witness for C7 (amended): a one-pass run loads the metadata once, and a
completing pass's effect trace is fetch, index load, index save, metadata
write. -/
theorem lifecycle_amended_witness :
    countEffect .loadMetadata
      (processTrace
        { embed := fun _ => .ok [1], initOk := true, load := .ok (⟨[]⟩, []),
          saveOk := true, metaWriteOk := true, now := 7 }
        [[{ id := "n1", title := "A", content := "B", modified := 10, trashed := false }]]
        { isIndexing := false, dbChangeDetected := false,
          metadata := { lastUpdate := 0, indexedNotes := [], lastVersion := 0 } }) = 1 ∧
    (updateIndex
        { embed := fun _ => .ok [1], initOk := true, load := .ok (⟨[]⟩, []),
          saveOk := true, metaWriteOk := true, now := 7 }
        [{ id := "n1", title := "A", content := "B", modified := 10, trashed := false }]
        { isIndexing := false, dbChangeDetected := false,
          metadata := { lastUpdate := 0, indexedNotes := [], lastVersion := 0 } }).trace =
      [.fetch, .loadIndex, .saveIndex, .writeMetadata] :=
  ⟨lifecycle_amended.1
      { embed := fun _ => .ok [1], initOk := true, load := .ok (⟨[]⟩, []),
        saveOk := true, metaWriteOk := true, now := 7 }
      [[{ id := "n1", title := "A", content := "B", modified := 10, trashed := false }]]
      { isIndexing := false, dbChangeDetected := false,
        metadata := { lastUpdate := 0, indexedNotes := [], lastVersion := 0 } },
   lifecycle_amended.2
      { embed := fun _ => .ok [1], initOk := true, load := .ok (⟨[]⟩, []),
        saveOk := true, metaWriteOk := true, now := 7 }
      [{ id := "n1", title := "A", content := "B", modified := 10, trashed := false }]
      { isIndexing := false, dbChangeDetected := false,
        metadata := { lastUpdate := 0, indexedNotes := [], lastVersion := 0 } }
      ⟨[]⟩ [] rfl (by decide) rfl rfl rfl rfl⟩

end BearSync
